import Mathlib

/-!
Formal verification of the two scripts in the VCMail repository,
`decode_email.py` (EmailLinkExtractor) and `fix_url.py` (UrlRepairer),
as a shallow embedding.  Python strings are embedded as `List Char` and
byte strings as `List Nat` (each element below 256).  Python library
routines used by the scripts (`str.find`, slicing, `str.replace`,
`re.findall` for the two fixed patterns, `quopri.decodestring`/quoted
printable coding, `html.unescape`, UTF-8 coding) are embedded as
executable Lean functions; every recursive function is structural (with
an explicit fuel argument equal to the input length where needed) so
that the kernel can evaluate it on concrete inputs.
-/

namespace VCMail

/-! ## Basic Python string primitives -/

/-- Test whether `pat` is a leading segment of `s` (character lists). -/
def isPre : List Char → List Char → Bool
  | [], _ => true
  | _ :: _, [] => false
  | a :: pa, b :: sb => a = b && isPre pa sb

/-- Index of the first occurrence of `pat` in `s`, or `none`.
This is the search underlying Python `str.find`. -/
def subFind : List Char → List Char → Option Nat
  | s, pat =>
    if isPre pat s then some 0
    else
      match s with
      | [] => none
      | _ :: t => (subFind t pat).map (· + 1)

/-- Boolean substring test, via `subFind`. -/
def containsSub (s pat : List Char) : Bool := (subFind s pat).isSome

/-- Python `s.find(pat, start)`: the lowest index at or after `start`
where `pat` occurs, or `-1`. -/
def pyFind (s pat : List Char) (start : Nat) : Int :=
  match subFind (s.drop start) pat with
  | some i => ((start + i : Nat) : Int)
  | none => -1

/-- Normalisation of a (possibly negative) Python slice end index. -/
def pyEnd (len : Nat) (j : Int) : Nat :=
  if j < 0 then ((len : Int) + j).toNat else min j.toNat len

/-- Python slice `s[i:j]` with a nonnegative start `i` and an arbitrary
(possibly negative) end `j`. -/
def pySlice (s : List Char) (i : Nat) (j : Int) : List Char :=
  (s.take (pyEnd s.length j)).drop i

/-- Python `s.replace(pat, rep)` (all occurrences, left to right),
fuelled; the fuel bounds the number of scan steps. -/
def pyReplaceAux : Nat → List Char → List Char → List Char → List Char
  | 0, s, _, _ => s
  | f + 1, s, pat, rep =>
    if isPre pat s then rep ++ pyReplaceAux f (s.drop pat.length) pat rep
    else
      match s with
      | [] => []
      | c :: t => c :: pyReplaceAux f t pat rep

/-- Python `s.replace(pat, rep)` for a nonempty pattern (the only case
the scripts use). -/
def pyReplace (s pat rep : List Char) : List Char :=
  if pat.isEmpty then s else pyReplaceAux s.length s pat rep

/-! ## UrlRepairer (`fix_url.py`) -/

/-- The hard-coded malformed URL literal of `fix_url.py`. -/
def malformedUrl : List Char :=
  "https://www.paypal.com/signin?expId=confirmEmail&amp;ccï¿½238665767824618297&amp;em=V6MN70DmDl16zNoUJBAMe9m4nwa0VPzRrTuy3LyF1mYlPp9LGI_Myfhf1l4&amp;returnUri=https%3A%2F%2Fwww.paypal.com%2Fmep%2Fdashboard&amp;v=1&amp;utm_source=unp&amp;utm_medium=email&amp;utm_campaign=RT000594&amp;utm_unptidj03a056-cf6e-11f0-935e-1d78024aafd6&amp;ppid=RT000594&amp;cnac=US&amp;rsta=en_US%28en-US%29&amp;cust=H37KLCN2WXJ7N&amp;unptidj03a056-cf6e-11f0-935e-1d78024aafd6&amp;calcï¿½a7a55029f30&amp;unp_tpcidï¿½tivation-confirmation-email-251&amp;page=main%3Aemail%3ART000594&amp;pgrp=main%3Aemail&amp;e=cl&amp;mchn=em&amp;s=ci&amp;mail=sys&amp;appVersion=1.371.0&amp;tenant_name=PAYPAL&amp;xtï¿½5585%2C150948%2C104038&amp;link_ref=www.paypal.com_signin".toList

/-- The corrected URL: the ordered replacement sequence of `fix_url.py`
applied to `malformedUrl` (`fixed` in the source). -/
def fixedUrl : List Char :=
  let f1 := pyReplace malformedUrl "&amp;".toList "&".toList
  let f2 := pyReplace f1 "&ccï¿½".toList "&cc=".toList
  let f3 := pyReplace f2 "&calcï¿½a7a55029f30".toList "&calc=c9a7a55029f30".toList
  let f4 := pyReplace f3 "&unp_tpcidï¿½tivation".toList "&unp_tpcid=activation".toList
  let f5 := pyReplace f4 "&xtï¿½5585".toList "&xt=145585".toList
  let f6 := pyReplace f5 "&utm_unptidj03a056".toList "&utm_unptid=j03a056".toList
  pyReplace f6 "&unptidj03a056".toList "&unptid=j03a056".toList

/-! ## Quoted-printable transfer coding

`quopri.decodestring` (CPython `binascii.a2b_qp`) embedded over byte
lists: `=XX` hex escapes decode to the byte `XX`, soft line breaks
`=\n` and `=\r...\n` are removed, `==` yields a literal `=`, a lone or
unusable `=` is kept literally (dropped at end of input), and every
other byte passes through. -/

/-- Decimal or hex digit test on a byte (upper or lower case letters),
as accepted by `binascii.a2b_qp`. -/
def isHexD (b : Nat) : Bool :=
  (48 ≤ b && b ≤ 57) || (65 ≤ b && b ≤ 70) || (97 ≤ b && b ≤ 102)

/-- Numeric value of a hex-digit byte. -/
def hexVal (b : Nat) : Nat :=
  if b ≤ 57 then b - 48 else if b ≤ 70 then b - 55 else b - 87

/-- Skip bytes up to and including the next newline (byte 10). -/
def dropToNL : List Nat → List Nat
  | [] => []
  | b :: t => if b = 10 then t else dropToNL t

/-- Fuelled quoted-printable decoding of a byte list (the algorithm of
`binascii.a2b_qp`); the fuel bounds the number of scan steps. -/
def qpDecodeAux : Nat → List Nat → List Nat
  | 0, _ => []
  | f + 1, l =>
    match l with
    | [] => []
    | c :: rest =>
      if c = 61 then
        match rest with
        | [] => []
        | d :: t =>
          if d = 10 then qpDecodeAux f t
          else if d = 13 then qpDecodeAux f (dropToNL t)
          else if d = 61 then 61 :: qpDecodeAux f t
          else
            match t with
            | [] => [61, d]
            | e :: t2 =>
              if isHexD d && isHexD e then
                (hexVal d * 16 + hexVal e) :: qpDecodeAux f t2
              else 61 :: qpDecodeAux f (d :: e :: t2)
      else c :: qpDecodeAux f rest

/-- Quoted-printable decoding of a byte list, the decode step used by
EmailLinkExtractor (`quopri.decodestring`). -/
def qpDecodeBytes (l : List Nat) : List Nat := qpDecodeAux l.length l

/-- Uppercase hex digit byte for a value below 16. -/
def hexDigit (n : Nat) : Nat := if n < 10 then 48 + n else 55 + n

/-- Standard quoted-printable encoding of one byte: printable bytes
(33 to 126 except `=`), space, tab and newline pass through, every
other byte becomes an `=XX` hex escape. -/
def encByte (b : Nat) : List Nat :=
  if (33 ≤ b && b ≤ 126 && b ≠ 61) || b = 32 || b = 9 || b = 10 then [b]
  else [61, hexDigit (b / 16), hexDigit (b % 16)]

/-- Standard quoted-printable encoding with soft line breaks: `col` is
the current output column; a chunk that would push the line past 76
characters is preceded by a soft break `=\n`. -/
def qpEncodeAux : List Nat → Nat → List Nat
  | [], _ => []
  | b :: t, col =>
    let chunk := encByte b
    if 75 < col + chunk.length then
      61 :: 10 :: (chunk ++ qpEncodeAux t chunk.length)
    else chunk ++ qpEncodeAux t (if b = 10 then 0 else col + chunk.length)

/-- Standard quoted-printable encoding of a byte list. -/
def qpEncodeBytes (l : List Nat) : List Nat := qpEncodeAux l 0

/-! ## UTF-8 coding

Python `str.encode` and `bytes.decode` for the UTF-8 codec, embedded
over code-point (`Char`) and byte lists.  The decoder is strict, as in
Python: overlong forms, surrogates, out-of-range code points and
truncated sequences are rejected. -/

/-- UTF-8 encoding of one code point. -/
def utf8EncodeChar (c : Nat) : List Nat :=
  if c < 128 then [c]
  else if c < 2048 then [192 + c / 64, 128 + c % 64]
  else if c < 65536 then [224 + c / 4096, 128 + c / 64 % 64, 128 + c % 64]
  else [240 + c / 262144, 128 + c / 4096 % 64, 128 + c / 64 % 64, 128 + c % 64]

/-- UTF-8 encoding of a character list (Python `str.encode`). -/
def utf8Encode (s : List Char) : List Nat :=
  s.flatMap (fun c => utf8EncodeChar c.toNat)

/-- Continuation-byte test. -/
def isCont (b : Nat) : Bool := 128 ≤ b && b < 192

/-- Fuelled strict UTF-8 decoding (Python `bytes.decode` with the
`utf-8` codec); `none` models a raised `UnicodeDecodeError`. -/
def utf8DecodeAux : Nat → List Nat → Option (List Char)
  | 0, l => if l.isEmpty then some [] else none
  | f + 1, l =>
    match l with
    | [] => some []
    | b :: rest =>
      if b < 128 then (utf8DecodeAux f rest).map (Char.ofNat b :: ·)
      else if 194 ≤ b && b < 224 then
        match rest with
        | b2 :: r2 =>
          if isCont b2 then
            (utf8DecodeAux f r2).map (Char.ofNat ((b - 192) * 64 + (b2 - 128)) :: ·)
          else none
        | _ => none
      else if 224 ≤ b && b < 240 then
        match rest with
        | b2 :: b3 :: r3 =>
          if isCont b2 && isCont b3 then
            let cp := (b - 224) * 4096 + (b2 - 128) * 64 + (b3 - 128)
            if 2048 ≤ cp && !(55296 ≤ cp && cp ≤ 57343) then
              (utf8DecodeAux f r3).map (Char.ofNat cp :: ·)
            else none
          else none
        | _ => none
      else if 240 ≤ b && b < 245 then
        match rest with
        | b2 :: b3 :: b4 :: r4 =>
          if isCont b2 && isCont b3 && isCont b4 then
            let cp := (b - 240) * 262144 + (b2 - 128) * 4096 + (b3 - 128) * 64 + (b4 - 128)
            if 65536 ≤ cp && cp ≤ 1114111 then
              (utf8DecodeAux f r4).map (Char.ofNat cp :: ·)
            else none
          else none
        | _ => none
      else none

/-- Strict UTF-8 decoding of a byte list. -/
def utf8Decode (l : List Nat) : Option (List Char) := utf8DecodeAux l.length l

/-- ASCII test on a character; `binascii.a2b_qp` accepts a `str`
argument only when all of its characters are ASCII. -/
def asciiChar (c : Char) : Bool := c.toNat < 128

/-! ## The two `href` regular expressions

`re.findall` for the fixed patterns of `decode_email.py`, namely
`href=["..]([^"..]+)["..]` and `href=3D["..]([^"..]+)["..]` where
`[".;]` stands for the character class holding the double and the
single quote.  A match at a position is: the literal (`href=` or
`href=3D`), one quote character of either kind, a nonempty maximal run
of characters that are neither kind of quote, and a closing quote
character of either kind; the captured group is the run.  Scanning is
left to right and non-overlapping, as in `re.findall`. -/

/-- The double or single quote character. -/
def isQuote (c : Char) : Bool := c = Char.ofNat 34 || c = Char.ofNat 39

/-- Split a character list at its first quote character. -/
def spanNonQuote : List Char → List Char × List Char
  | [] => ([], [])
  | c :: t =>
    if isQuote c then ([], c :: t)
    else
      let p := spanNonQuote t
      (c :: p.1, p.2)

/-- Match the pattern `lit["..]([^"..]+)["..]` at the start of `s`,
returning the captured group and the remainder after the match. -/
def hrefMatchAt (lit s : List Char) : Option (List Char × List Char) :=
  if isPre lit s then
    match s.drop lit.length with
    | [] => none
    | q :: u =>
      if isQuote q then
        match spanNonQuote u with
        | (_, []) => none
        | (run, _ :: rest) => if run.isEmpty then none else some (run, rest)
      else none
  else none

/-- Fuelled left-to-right non-overlapping scan collecting all captured
groups of the pattern (`re.findall` with one group). -/
def scanAux (lit : List Char) : Nat → List Char → List (List Char)
  | 0, _ => []
  | f + 1, s =>
    match hrefMatchAt lit s with
    | some (v, rest) => v :: scanAux lit f rest
    | none =>
      match s with
      | [] => []
      | _ :: t => scanAux lit f t

/-- All captured groups of the pattern `lit["..]([^"..]+)["..]` in `s`,
in order of occurrence. -/
def scanHref (lit s : List Char) : List (List Char) := scanAux lit s.length s

/-- The literal of the decoded-HTML link pattern. -/
def hrefLit : List Char := "href=".toList

/-- The literal of the raw (still encoded) link pattern. -/
def rawLit : List Char := "href=3D".toList

/-- Modelled from the spec: extraction of attribute values delimited by
MATCHING quote characters, the value containing no quote of that kind
(the reading of the pattern stated in the spec).  Used only to compare
the spec reading with the behaviour of the source pattern. -/
def specMatchAt (lit s : List Char) : Option (List Char × List Char) :=
  if isPre lit s then
    match s.drop lit.length with
    | [] => none
    | q :: u =>
      if isQuote q then
        match List.span (fun c => !(c = q)) u with
        | (_, []) => none
        | (run, _ :: rest) => if run.isEmpty then none else some (run, rest)
      else none
  else none

/-- Modelled from the spec: fuelled scan for `specMatchAt`. -/
def specScanAux (lit : List Char) : Nat → List Char → List (List Char)
  | 0, _ => []
  | f + 1, s =>
    match specMatchAt lit s with
    | some (v, rest) => v :: specScanAux lit f rest
    | none =>
      match s with
      | [] => []
      | _ :: t => specScanAux lit f t

/-- Modelled from the spec: the link list under the matching-quote
reading of the pattern. -/
def specScan (lit s : List Char) : List (List Char) := specScanAux lit s.length s

/-! ## EmailLinkExtractor (`decode_email.py`) -/

/-- The hard-coded MIME boundary token. -/
def boundary : List Char :=
  "Apple-Mail-A09F7E62-F8D0-44A2-A336-ACC3AE50D0F0".toList

/-- The HTML-part start marker searched on line 11 of the source. -/
def startMarker : List Char :=
  "--".toList ++ boundary ++ "\nContent-Type: text/html;".toList

/-- The terminal boundary marker searched on line 17. -/
def endMarker1 : List Char := "\n--".toList ++ boundary ++ "--".toList

/-- The fallback boundary marker searched on line 19. -/
def endMarker2 : List Char := "\n--".toList ++ boundary

/-- Line 11: `html_start = email_content.find(...)`. -/
def htmlStartOf (email : List Char) : Int := pyFind email startMarker 0

/-- Lines 17 to 19: the end index of the HTML part, `-1` when neither
boundary marker occurs after the part start. -/
def htmlEndOf (email : List Char) : Int :=
  let hs := (htmlStartOf email).toNat
  let he := pyFind email endMarker1 hs
  if he = -1 then pyFind email endMarker2 (hs + 1) else he

/-- Line 22: `html_section = email_content[html_start:html_end]`. -/
def htmlSectionOf (email : List Char) : List Char :=
  pySlice email (htmlStartOf email).toNat (htmlEndOf email)

/-- Lines 25 to 31: the body start offset inside the extracted part. -/
def bodyStartOf (sec : List Char) : Nat :=
  let b0 := pyFind sec "\n\n".toList 0
  let b1 := if b0 = -1 then pyFind sec "\r\n\r\n".toList 0 else b0
  if b1 = -1 then 0 else (b1 + 2).toNat

/-- Line 33: `html_body = html_section[body_start:]`. -/
def htmlBodyOf (email : List Char) : List Char :=
  let sec := htmlSectionOf email
  sec.drop (bodyStartOf sec)

/-- The outputs of a successful run: the decoded HTML, the decoded-HTML
link list, the raw still-encoded link list, and each raw link decoded
individually. -/
structure ExtractOut where
  decodedHtml : List Char
  links : List (List Char)
  rawLinks : List (List Char)
  rawDecoded : List (List Char)
deriving DecidableEq

/-- Process outcome of `decode_email.py`: `notFound` is the printed
diagnostic `Could not find HTML part` followed by `exit(1)` (no HTML
and no link output), `fatal` is an uncaught exception (nonzero host
status), `ok` is the fallthrough exit with status 0. -/
inductive Outcome where
  | notFound : Outcome
  | fatal : Outcome
  | ok : ExtractOut → Outcome
deriving DecidableEq

/-- Lines 16 to 68 of the source, after the part start was found:
decode the body (uncaught decode errors give `fatal`), extract both
link lists, and decode each raw link individually. -/
def extractBody (email : List Char) : Outcome :=
  if (htmlBodyOf email).all asciiChar then
    match utf8Decode (qpDecodeBytes ((htmlBodyOf email).map Char.toNat)) with
    | none => Outcome.fatal
    | some dh =>
      match (scanHref rawLit (htmlBodyOf email)).mapM
          (fun l => utf8Decode (qpDecodeBytes (utf8Encode l))) with
      | none => Outcome.fatal
      | some rdec =>
        Outcome.ok ⟨dh, scanHref hrefLit dh, scanHref rawLit (htmlBodyOf email), rdec⟩
  else Outcome.fatal

/-- The whole program on a given file content. -/
def runExtractor (email : List Char) : Outcome :=
  if htmlStartOf email < 0 then Outcome.notFound else extractBody email

/-! ## HTML entity unescaping

Modelled from the spec: the standard HTML-entity-unescape pass used by
UrlRepairer (Python `html.unescape`).  The scan follows the CPython
algorithm: at each ampersand, a candidate reference is a numeric form
`#digits` or `#x hexdigits` with an optional semicolon, or a run of
one to 32 name characters with an optional semicolon; a named
candidate is looked up whole, then by successively shorter leading
segments of length at least 2; an unmatched candidate is left verbatim.
The named-entity table is restricted to the HTML5 entities whose
semicolon may be omitted (each also entered with its semicolon); this
is exact for inputs whose candidates contain no semicolon, such as the
strings UrlRepairer produces.  The Windows-1252 remapping of a few
numeric references is not modelled. -/

/-- The HTML5 named entities whose semicolon may be omitted, with their
replacement text. -/
def legacyEntities : List (List Char × List Char) :=
  [("AElig".toList, "Æ".toList), ("AMP".toList, "&".toList),
   ("Aacute".toList, "Á".toList), ("Acirc".toList, "Â".toList),
   ("Agrave".toList, "À".toList), ("Aring".toList, "Å".toList),
   ("Atilde".toList, "Ã".toList), ("Auml".toList, "Ä".toList),
   ("COPY".toList, "©".toList), ("Ccedil".toList, "Ç".toList),
   ("ETH".toList, "Ð".toList), ("Eacute".toList, "É".toList),
   ("Ecirc".toList, "Ê".toList), ("Egrave".toList, "È".toList),
   ("Euml".toList, "Ë".toList), ("GT".toList, ">".toList),
   ("Iacute".toList, "Í".toList), ("Icirc".toList, "Î".toList),
   ("Igrave".toList, "Ì".toList), ("Iuml".toList, "Ï".toList),
   ("LT".toList, "<".toList), ("Ntilde".toList, "Ñ".toList),
   ("Oacute".toList, "Ó".toList), ("Ocirc".toList, "Ô".toList),
   ("Ograve".toList, "Ò".toList), ("Oslash".toList, "Ø".toList),
   ("Otilde".toList, "Õ".toList), ("Ouml".toList, "Ö".toList),
   ("QUOT".toList, "\"".toList), ("REG".toList, "®".toList),
   ("THORN".toList, "Þ".toList), ("Uacute".toList, "Ú".toList),
   ("Ucirc".toList, "Û".toList), ("Ugrave".toList, "Ù".toList),
   ("Uuml".toList, "Ü".toList), ("Yacute".toList, "Ý".toList),
   ("aacute".toList, "á".toList), ("acirc".toList, "â".toList),
   ("acute".toList, "´".toList), ("aelig".toList, "æ".toList),
   ("agrave".toList, "à".toList), ("amp".toList, "&".toList),
   ("aring".toList, "å".toList), ("atilde".toList, "ã".toList),
   ("auml".toList, "ä".toList), ("brvbar".toList, "¦".toList),
   ("ccedil".toList, "ç".toList), ("cedil".toList, "¸".toList),
   ("cent".toList, "¢".toList), ("copy".toList, "©".toList),
   ("curren".toList, "¤".toList), ("deg".toList, "°".toList),
   ("divide".toList, "÷".toList), ("eacute".toList, "é".toList),
   ("ecirc".toList, "ê".toList), ("egrave".toList, "è".toList),
   ("eth".toList, "ð".toList), ("euml".toList, "ë".toList),
   ("frac12".toList, "½".toList), ("frac14".toList, "¼".toList),
   ("frac34".toList, "¾".toList), ("gt".toList, ">".toList),
   ("iacute".toList, "í".toList), ("icirc".toList, "î".toList),
   ("iexcl".toList, "¡".toList), ("igrave".toList, "ì".toList),
   ("iquest".toList, "¿".toList), ("iuml".toList, "ï".toList),
   ("laquo".toList, "«".toList), ("lt".toList, "<".toList),
   ("macr".toList, "¯".toList), ("micro".toList, "µ".toList),
   ("middot".toList, "·".toList), ("nbsp".toList, [Char.ofNat 160]),
   ("not".toList, "¬".toList), ("ntilde".toList, "ñ".toList),
   ("oacute".toList, "ó".toList), ("ocirc".toList, "ô".toList),
   ("ograve".toList, "ò".toList), ("ordf".toList, "ª".toList),
   ("ordm".toList, "º".toList), ("oslash".toList, "ø".toList),
   ("otilde".toList, "õ".toList), ("ouml".toList, "ö".toList),
   ("para".toList, "¶".toList), ("plusmn".toList, "±".toList),
   ("pound".toList, "£".toList), ("quot".toList, "\"".toList),
   ("raquo".toList, "»".toList), ("reg".toList, "®".toList),
   ("sect".toList, "§".toList), ("shy".toList, [Char.ofNat 173]),
   ("sup1".toList, "¹".toList), ("sup2".toList, "²".toList),
   ("sup3".toList, "³".toList), ("szlig".toList, "ß".toList),
   ("thorn".toList, "þ".toList), ("times".toList, "×".toList),
   ("uacute".toList, "ú".toList), ("ucirc".toList, "û".toList),
   ("ugrave".toList, "ù".toList), ("uml".toList, "¨".toList),
   ("uuml".toList, "ü".toList), ("yacute".toList, "ý".toList),
   ("yen".toList, "¥".toList), ("yuml".toList, "ÿ".toList)]

/-- The lookup table: each legacy entity, with and without its
semicolon. -/
def entityTable : List (List Char × List Char) :=
  legacyEntities ++ legacyEntities.map (fun p => (p.1 ++ [Char.ofNat 59], p.2))

/-- Name characters of a candidate reference (the complement of the
class excluded by the CPython scanner). -/
def nameChar (c : Char) : Bool :=
  !(c = Char.ofNat 9 || c = Char.ofNat 10 || c = Char.ofNat 12 ||
    c = Char.ofNat 32 || c = Char.ofNat 60 || c = Char.ofNat 38 ||
    c = Char.ofNat 35 || c = Char.ofNat 59)

/-- Take at most `n` leading name characters, returning them and the
remainder. -/
def takeName : Nat → List Char → List Char × List Char
  | 0, l => ([], l)
  | _ + 1, [] => ([], [])
  | n + 1, c :: t =>
    if nameChar c then
      let p := takeName n t
      (c :: p.1, p.2)
    else ([], c :: t)

/-- The longest table key that is a leading segment of `g`, with its
replacement. -/
def bestKey (g : List Char) : Option (List Char × List Char) :=
  entityTable.foldl
    (fun acc p =>
      if isPre p.1 g then
        match acc with
        | none => some p
        | some q => if q.1.length < p.1.length then some p else some q
      else acc) none

/-- CPython `_replace_charref` on a named candidate: the whole
candidate is looked up, then successively shorter leading segments of
length at least 2.  Because every table key has length at least 2 and
keys are distinct, this equals replacing by the longest table key that
is a leading segment of the candidate; an unmatched candidate keeps
its ampersand. -/
def refReplace (g : List Char) : List Char :=
  match bestKey g with
  | some p => p.2 ++ g.drop p.1.length
  | none => Char.ofNat 38 :: g

/-- Decimal digit test on a character. -/
def digitChar (c : Char) : Bool := 48 ≤ c.toNat && c.toNat ≤ 57

/-- Hex digit test on a character. -/
def hexChar (c : Char) : Bool := isHexD c.toNat

/-- Value of a decimal digit string. -/
def natOfDigits (ds : List Char) : Nat :=
  ds.foldl (fun a c => a * 10 + (c.toNat - 48)) 0

/-- Value of a hex digit string. -/
def natOfHex (ds : List Char) : Nat :=
  ds.foldl (fun a c => a * 16 + hexVal c.toNat) 0

/-- Replacement text of a numeric reference: the code point when it is
a nonzero Unicode scalar value, else U+FFFD. -/
def numRef (cp : Nat) : List Char :=
  if (0 < cp && cp < 55296) || (57343 < cp && cp < 1114112) then [Char.ofNat cp]
  else [Char.ofNat 65533]

/-- Drop one leading semicolon when present. -/
def dropSemi : List Char → List Char
  | [] => []
  | c :: r => if c = Char.ofNat 59 then r else c :: r

/-- Fuelled scan of `html.unescape`. -/
def unescAux : Nat → List Char → List Char
  | 0, s => s
  | f + 1, s =>
    match s with
    | [] => []
    | c :: t =>
      if c = Char.ofNat 38 then
        match t with
        | u0 :: u =>
          if u0 = Char.ofNat 35 then
            match u with
            | [] => c :: unescAux f t
            | x :: v =>
              if x = Char.ofNat 120 || x = Char.ofNat 88 then
                match List.span hexChar v with
                | ([], _) => c :: unescAux f t
                | (ds, r) => numRef (natOfHex ds) ++ unescAux f (dropSemi r)
              else
                match List.span digitChar u with
                | ([], _) => c :: unescAux f t
                | (ds, r) => numRef (natOfDigits ds) ++ unescAux f (dropSemi r)
          else
            match takeName 32 t with
            | ([], _) => c :: unescAux f t
            | (g0, r0) =>
              match r0 with
              | [] => refReplace g0
              | c2 :: r1 =>
                if c2 = Char.ofNat 59 then
                  refReplace (g0 ++ [Char.ofNat 59]) ++ unescAux f r1
                else refReplace g0 ++ unescAux f r0
        | [] => [c]
      else c :: unescAux f t

/-- Python `html.unescape` (see the section comment for the modelled
restriction of the entity table). -/
def htmlUnescape (s : List Char) : List Char := unescAux s.length s

/-- The decoded URL printed by `fix_url.py` (`decoded` in the source):
the HTML-entity-unescape pass applied to the corrected URL. -/
def decodedUrl : List Char := htmlUnescape fixedUrl

/-! ## Claims about UrlRepairer -/

set_option maxRecDepth 1000000
set_option maxHeartbeats 1000000

/-- C5: the corrected URL printed by UrlRepairer after the ordered
replacement sequence contains the substrings `&cc=`,
`&calc=c9a7a55029f30`, `&unp_tpcid=activation`, `&xt=145585` and
`&utm_unptid=j03a056`, and contains no remaining `&amp;` sequence and
no remaining corruption-marker sequence. -/
theorem fixed_url_contents :
    containsSub fixedUrl "&cc=".toList = true ∧
    containsSub fixedUrl "&calc=c9a7a55029f30".toList = true ∧
    containsSub fixedUrl "&unp_tpcid=activation".toList = true ∧
    containsSub fixedUrl "&xt=145585".toList = true ∧
    containsSub fixedUrl "&utm_unptid=j03a056".toList = true ∧
    containsSub fixedUrl "&amp;".toList = false ∧
    containsSub fixedUrl "ï¿½".toList = false := by
  decide!

/-- C10: the HTML-entity-unescape pass is the identity on UrlRepairer
corrected URL, so the printed decoded URL equals the printed corrected
URL character for character. -/
theorem decoded_url_eq_fixed : decodedUrl = fixedUrl := by
  decide!

/-- C9: the final decoded output of UrlRepairer contains no HTML
entity sequence (unescaping it again changes nothing and no literal
`&amp;` remains), and each percent-encoded segment of the corrected
URL appears unchanged in the decoded output. -/
theorem decoded_url_no_entities :
    containsSub decodedUrl "&amp;".toList = false ∧
    htmlUnescape decodedUrl = decodedUrl ∧
    (containsSub fixedUrl "%3A".toList = true ∧
      containsSub decodedUrl "%3A".toList = true) ∧
    (containsSub fixedUrl "%2F".toList = true ∧
      containsSub decodedUrl "%2F".toList = true) ∧
    (containsSub fixedUrl "%2C".toList = true ∧
      containsSub decodedUrl "%2C".toList = true) ∧
    (containsSub fixedUrl "%28".toList = true ∧
      containsSub decodedUrl "%28".toList = true) ∧
    (containsSub fixedUrl "%29".toList = true ∧
      containsSub decodedUrl "%29".toList = true) := by
  decide!

/-! ## Lemmas about the string primitives -/

theorem isPre_append (p t : List Char) : isPre p (p ++ t) = true := by
  induction p with
  | nil => rfl
  | cons a pa ih => simp [isPre, ih]

theorem eq_append_of_isPre :
    ∀ (p s : List Char), isPre p s = true → s = p ++ s.drop p.length := by
  intro p
  induction p with
  | nil => intro s _; simp
  | cons a pa ih =>
    intro s h
    cases s with
    | nil => simp [isPre] at h
    | cons b sb =>
      simp only [isPre, Bool.and_eq_true, decide_eq_true_eq] at h
      obtain ⟨rfl, h2⟩ := h
      simpa using ih sb h2

theorem subFind_isPre :
    ∀ (s p : List Char) (i : Nat), subFind s p = some i → isPre p (s.drop i) = true := by
  intro s
  induction s with
  | nil =>
    intro p i h
    rw [subFind] at h
    split at h
    · cases h; simpa using ‹isPre p [] = true›
    · simp at h
  | cons c t ih =>
    intro p i h
    rw [subFind] at h
    split at h
    · cases h; simpa using ‹isPre p (c :: t) = true›
    · simp only [Option.map_eq_some'] at h
      obtain ⟨j, hj, rfl⟩ := h
      simpa using ih p j hj

theorem containsSub_false_iff (s p : List Char) :
    containsSub s p = false ↔ subFind s p = none := by
  unfold containsSub
  cases subFind s p <;> simp

/-! ## Synthetic inputs used by the concrete parts of the claims -/

/-- The still-encoded HTML body of the synthetic well-formed email. -/
def synthBody : List Char :=
  "<a href=3D\"https://example.com/a?x=3D1\">ok</a>".toList

/-- A synthetic well-formed email: the boundary, a header block, a
blank-line separator, a quoted-printable HTML body and the terminal
boundary marker. -/
def synthEmail : List Char :=
  "--".toList ++ boundary ++ "\nContent-Type: text/html;\n charset=utf-8\n\n".toList
    ++ synthBody ++ "\n--".toList ++ boundary ++ "--\n".toList

/-- The decoded HTML of the synthetic email. -/
def synthDecodedHtml : List Char :=
  "<a href=\"https://example.com/a?x=1\">ok</a>".toList

/-- The still-encoded link value of the synthetic email. -/
def synthRawLink : List Char := "https://example.com/a?x=3D1".toList

/-- The decoded link value of the synthetic email. -/
def synthDecLink : List Char := "https://example.com/a?x=1".toList

/-- An input whose HTML part has no closing boundary marker: the start
marker immediately followed by body text. -/
def cex2Email : List Char := startMarker ++ "XYZ".toList

/-- An extracted part whose header separator is a CR LF CR LF sequence
and not a bare double newline. -/
def cex3Part : List Char := "H: v\r\n\r\nBODY".toList

/-! ## C1: exit status of EmailLinkExtractor -/

theorem extractBody_ne_notFound (e : List Char) :
    extractBody e ≠ Outcome.notFound := by
  unfold extractBody
  split
  · split
    · simp
    · split <;> simp
  · simp

/-- C1: when the input file does not contain the HTML-part start
marker, the program prints the diagnostic and exits with status 1
(outcome `notFound`, carrying no decoded HTML and no links); when the
marker is found the exit-1 path is not taken, and when additionally no
later fatal error occurs the program falls through with status 0
(outcome `ok`). -/
theorem extractor_exit (email : List Char) :
    (containsSub email startMarker = false → runExtractor email = Outcome.notFound) ∧
    (containsSub email startMarker = true →
      runExtractor email ≠ Outcome.notFound ∧
      (runExtractor email ≠ Outcome.fatal → ∃ r, runExtractor email = Outcome.ok r)) := by
  constructor
  · intro h
    have hn : subFind email startMarker = none := (containsSub_false_iff _ _).mp h
    unfold runExtractor htmlStartOf pyFind
    simp [hn]
  · intro h
    obtain ⟨i, hi⟩ : ∃ i, subFind email startMarker = some i := by
      unfold containsSub at h
      cases hs : subFind email startMarker
      · rw [hs] at h; simp at h
      · exact ⟨_, rfl⟩
    have hrun : runExtractor email = extractBody email := by
      unfold runExtractor htmlStartOf pyFind
      simp [hi]
    rw [hrun]
    refine ⟨extractBody_ne_notFound email, ?_⟩
    intro hf
    cases hv : extractBody email with
    | notFound => exact absurd hv (extractBody_ne_notFound email)
    | fatal => rw [hv] at hf; simp at hf
    | ok r => exact ⟨r, rfl⟩

/-- Witness for C1 at two concrete inputs: the empty file misses the
marker and yields the diagnostic outcome; the synthetic email contains
it and does not. -/
theorem extractor_exit_witness :
    runExtractor [] = Outcome.notFound ∧
    runExtractor synthEmail ≠ Outcome.notFound :=
  ⟨(extractor_exit []).1 (by decide!),
   ((extractor_exit synthEmail).2 (by decide!)).1⟩

/-! ## C2: missing end boundary -/

theorem pyEnd_neg_one (len : Nat) : pyEnd len (-1) = len - 1 := by
  unfold pyEnd
  simp only [if_pos (by omega : (-1 : Int) < 0)]
  omega

theorem take_pred_drop (l : List Char) (n : Nat) :
    (l.take (l.length - 1)).drop n = (l.drop n).dropLast := by
  rcases le_or_lt l.length n with h | h
  · rw [List.drop_eq_nil_of_le (by simp; omega),
      List.drop_eq_nil_of_le (by omega)]
    rfl
  · have hsplit : l.length - 1 = n + (l.length - 1 - n) := by omega
    rw [hsplit, ← List.take_drop, List.dropLast_eq_take, List.length_drop]
    congr 1
    omega

/-- C2 (amended): when the input contains the HTML-part start marker
but after the part start neither the terminal boundary marker nor a
further boundary occurrence is found, the end index used for the slice
is `-1`; under Python slice semantics the extracted part is then the
remainder of the file after the part start WITHOUT its final
character. -/
theorem html_end_fallback_drops_last (email : List Char)
    (_h1 : containsSub email startMarker = true)
    (h2 : pyFind email endMarker1 (htmlStartOf email).toNat = -1)
    (h3 : pyFind email endMarker2 ((htmlStartOf email).toNat + 1) = -1) :
    htmlEndOf email = -1 ∧
    htmlSectionOf email = (email.drop (htmlStartOf email).toNat).dropLast := by
  have hend : htmlEndOf email = -1 := by
    unfold htmlEndOf
    simp only [h2, if_pos rfl]
    exact h3
  refine ⟨hend, ?_⟩
  unfold htmlSectionOf pySlice
  rw [hend, pyEnd_neg_one, take_pred_drop]

/-- Counterexample for C2 as stated: on a concrete input meeting the
claim hypotheses the extracted part is NOT the whole remainder of the
file after the part start (the final character is dropped). -/
theorem html_end_fallback_cex :
    containsSub cex2Email startMarker = true ∧
    pyFind cex2Email endMarker1 (htmlStartOf cex2Email).toNat = -1 ∧
    pyFind cex2Email endMarker2 ((htmlStartOf cex2Email).toNat + 1) = -1 ∧
    htmlEndOf cex2Email = -1 ∧
    htmlSectionOf cex2Email ≠ cex2Email.drop (htmlStartOf cex2Email).toNat := by
  decide!

/-- Witness for C2 (amended) at the concrete input. -/
theorem html_end_fallback_witness :
    htmlEndOf cex2Email = -1 ∧
    htmlSectionOf cex2Email = (cex2Email.drop (htmlStartOf cex2Email).toNat).dropLast :=
  html_end_fallback_drops_last cex2Email (by decide!) (by decide!) (by decide!)

/-! ## C3: the CR LF CR LF header separator -/

/-- C3 (amended): in an extracted part with no bare double newline but
with a CR LF CR LF sequence at index `i`, the body offset is `i + 2`,
two characters after the START of the four-character separator, so the
body slice retains the separator's second CR LF rather than beginning
immediately after the whole blank-line sequence. -/
theorem body_start_crlf_offset (sec : List Char) (i : Nat)
    (h1 : subFind sec "\n\n".toList = none)
    (h2 : subFind sec "\r\n\r\n".toList = some i) :
    bodyStartOf sec = i + 2 ∧
    sec.drop (bodyStartOf sec) = '\r' :: '\n' :: sec.drop (i + 4) := by
  have hb : bodyStartOf sec = i + 2 := by
    unfold bodyStartOf pyFind
    simp only [String.toList] at h1 h2 ⊢
    simp [h1, h2]
    omega
  refine ⟨hb, ?_⟩
  rw [hb]
  have hp : isPre "\r\n\r\n".toList (sec.drop i) = true := subFind_isPre sec _ i h2
  have hsec : sec.drop i = "\r\n\r\n".toList ++ (sec.drop i).drop 4 :=
    eq_append_of_isPre _ _ hp
  rw [List.drop_drop] at hsec
  have : sec.drop (i + 2) = (sec.drop i).drop 2 := by rw [List.drop_drop]
  rw [this, hsec]
  rfl

/-- Counterexample for C3 as stated: on a concrete part with a CR LF
CR LF separator at index 4 the body slice is NOT the part text
following the blank-line sequence (index 8), since the offset
adjustment adds only 2. -/
theorem body_start_crlf_cex :
    subFind cex3Part "\n\n".toList = none ∧
    subFind cex3Part "\r\n\r\n".toList = some 4 ∧
    cex3Part.drop (bodyStartOf cex3Part) ≠ cex3Part.drop (4 + 4) := by
  decide!

/-- Witness for C3 (amended) at the concrete part. -/
theorem body_start_crlf_witness :
    bodyStartOf cex3Part = 4 + 2 ∧
    cex3Part.drop (bodyStartOf cex3Part) = '\r' :: '\n' :: cex3Part.drop (4 + 4) :=
  body_start_crlf_offset cex3Part 4 (by decide!) (by decide!)

/-! ## Lemmas about the href scanners -/

theorem spanNonQuote_split :
    ∀ (u run rem : List Char), spanNonQuote u = (run, rem) →
      u = run ++ rem ∧ (∀ c ∈ run, isQuote c = false) ∧
      (∀ c rem2, rem = c :: rem2 → isQuote c = true) := by
  intro u
  induction u with
  | nil =>
    intro run rem h
    simp only [spanNonQuote, Prod.mk.injEq] at h
    obtain ⟨rfl, rfl⟩ := h
    exact ⟨rfl, by simp, by simp⟩
  | cons c t ih =>
    intro run rem h
    simp only [spanNonQuote] at h
    by_cases hq : isQuote c = true
    · rw [if_pos hq] at h
      simp only [Prod.mk.injEq] at h
      obtain ⟨rfl, rfl⟩ := h
      refine ⟨by simp, by simp, ?_⟩
      intro c2 rem2 heq
      cases heq
      exact hq
    · rw [if_neg hq] at h
      simp only [Prod.mk.injEq] at h
      obtain ⟨rfl, rfl⟩ := h
      obtain ⟨hsplit, hfree, hhead⟩ :=
        ih (spanNonQuote t).1 (spanNonQuote t).2 rfl
      refine ⟨by simpa using hsplit, ?_, hhead⟩
      intro c2 hc2
      rcases List.mem_cons.mp hc2 with rfl | hc2
      · simpa using hq
      · exact hfree c2 hc2

theorem spanNonQuote_eq (v : List Char) (q : Char) (rest : List Char)
    (hv : ∀ c ∈ v, isQuote c = false) (hq : isQuote q = true) :
    spanNonQuote (v ++ q :: rest) = (v, q :: rest) := by
  induction v with
  | nil => simp [spanNonQuote, hq]
  | cons c t ih =>
    have hc : isQuote c = false := hv c (by simp)
    have := ih (fun x hx => hv x (by simp [hx]))
    simp [spanNonQuote, hc, this]

theorem hrefMatchAt_nil (lit : List Char) : hrefMatchAt lit [] = none := by
  unfold hrefMatchAt
  split
  · simp
  · rfl

theorem hrefMatchAt_some :
    ∀ (lit s v rest : List Char), hrefMatchAt lit s = some (v, rest) →
      ∃ q1 q2, isQuote q1 = true ∧ isQuote q2 = true ∧ v ≠ [] ∧
        (∀ c ∈ v, isQuote c = false) ∧ s = lit ++ q1 :: (v ++ q2 :: rest) := by
  intro lit s v rest h
  unfold hrefMatchAt at h
  by_cases hpre : isPre lit s = true
  swap
  · rw [if_neg hpre] at h
    simp at h
  rw [if_pos hpre] at h
  rcases hdrop : s.drop lit.length with _ | ⟨q, u⟩ <;> rw [hdrop] at h <;>
    dsimp only at h
  · simp at h
  by_cases hq : isQuote q = true
  swap
  · rw [if_neg hq] at h
    simp at h
  rw [if_pos hq] at h
  rcases hspan : spanNonQuote u with ⟨run, _ | ⟨q2, rest2⟩⟩ <;> rw [hspan] at h <;>
    dsimp only at h
  · simp at h
  by_cases hrun : run.isEmpty = true
  · rw [if_pos hrun] at h
    simp at h
  rw [if_neg hrun] at h
  simp only [Option.some.injEq, Prod.mk.injEq] at h
  obtain ⟨rfl, rfl⟩ := h
  obtain ⟨hu, hfree, hhead⟩ := spanNonQuote_split u run (q2 :: rest2) hspan
  refine ⟨q, q2, hq, hhead q2 rest2 rfl, by simpa using hrun, hfree, ?_⟩
  calc s = lit ++ s.drop lit.length := eq_append_of_isPre lit s hpre
    _ = lit ++ q :: u := by rw [hdrop]
    _ = lit ++ q :: (run ++ q2 :: rest2) := by rw [hu]

theorem hrefMatchAt_some_length (lit s v rest : List Char)
    (h : hrefMatchAt lit s = some (v, rest)) :
    rest.length + 2 ≤ s.length := by
  obtain ⟨q1, q2, _, _, _, _, hs⟩ := hrefMatchAt_some lit s v rest h
  subst hs
  simp
  omega

theorem scanAux_fuel (lit : List Char) :
    ∀ (f g : Nat) (s : List Char), s.length ≤ f → s.length ≤ g →
      scanAux lit f s = scanAux lit g s := by
  intro f
  induction f with
  | zero =>
    intro g s hf _
    have : s = [] := List.length_eq_zero.mp (by omega)
    subst this
    cases g with
    | zero => rfl
    | succ g => simp [scanAux, hrefMatchAt_nil]
  | succ f ih =>
    intro g s hf hg
    cases g with
    | zero =>
      have : s = [] := List.length_eq_zero.mp (by omega)
      subst this
      simp [scanAux, hrefMatchAt_nil]
    | succ g =>
      simp only [scanAux]
      cases hm : hrefMatchAt lit s with
      | some p =>
        obtain ⟨v, rest⟩ := p
        have hlen := hrefMatchAt_some_length lit s v rest hm
        dsimp only
        rw [ih g rest (by omega) (by omega)]
      | none =>
        cases s with
        | nil => rfl
        | cons c t =>
          simp only [List.length_cons] at hf hg
          dsimp only
          exact ih g t (by omega) (by omega)

theorem scanHref_cons_match (lit s v rest : List Char)
    (h : hrefMatchAt lit s = some (v, rest)) :
    scanHref lit s = v :: scanHref lit rest := by
  have hlen := hrefMatchAt_some_length lit s v rest h
  unfold scanHref
  have hs : s.length = (s.length - 1) + 1 := by omega
  rw [hs]
  simp only [scanAux, h]
  rw [scanAux_fuel lit (s.length - 1) rest.length rest (by omega) le_rfl]

theorem scanHref_block (lit : List Char) (q q2 : Char) (v rest : List Char)
    (hq : isQuote q = true) (hq2 : isQuote q2 = true) (hv : v ≠ [])
    (hvq : ∀ c ∈ v, isQuote c = false) :
    scanHref lit (lit ++ q :: (v ++ q2 :: rest)) = v :: scanHref lit rest := by
  apply scanHref_cons_match
  unfold hrefMatchAt
  rw [if_pos (isPre_append lit _), List.drop_left]
  dsimp only
  rw [if_pos hq, spanNonQuote_eq v q2 rest hvq hq2]
  dsimp only
  simp [hv]

theorem containsSub_of_isPre (s pat : List Char) (h : isPre pat s = true) :
    containsSub s pat = true := by
  unfold containsSub
  rw [subFind.eq_def]
  dsimp only
  rw [if_pos h]
  rfl

theorem containsSub_cons (c : Char) (s pat : List Char)
    (h : containsSub s pat = true) : containsSub (c :: s) pat = true := by
  unfold containsSub at h ⊢
  rw [subFind.eq_def]
  dsimp only
  split
  · rfl
  · simpa using h

theorem containsSub_append (pre s pat : List Char)
    (h : containsSub s pat = true) : containsSub (pre ++ s) pat = true := by
  induction pre with
  | nil => simpa using h
  | cons c t ih => exact containsSub_cons c (t ++ s) pat ih

theorem scan_sound (lit : List Char) :
    ∀ (f : Nat) (s : List Char), ∀ v ∈ scanAux lit f s,
      v ≠ [] ∧ (∀ c ∈ v, isQuote c = false) ∧
      ∃ q1 q2, isQuote q1 = true ∧ isQuote q2 = true ∧
        containsSub s (lit ++ q1 :: (v ++ [q2])) = true := by
  intro f
  induction f with
  | zero => intro s v hv; simp [scanAux] at hv
  | succ f ih =>
    intro s v hv
    simp only [scanAux] at hv
    cases hm : hrefMatchAt lit s with
    | some p =>
      obtain ⟨w, rest⟩ := p
      rw [hm] at hv
      dsimp only at hv
      obtain ⟨q1, q2, hq1, hq2, hw, hwfree, hs⟩ :=
        hrefMatchAt_some lit s w rest hm
      have hs2 : s = (lit ++ q1 :: (w ++ [q2])) ++ rest := by
        rw [hs]; simp
      rcases List.mem_cons.mp hv with rfl | hv2
      · refine ⟨hw, hwfree, q1, q2, hq1, hq2, ?_⟩
        rw [hs2]
        exact containsSub_of_isPre _ _ (isPre_append (lit ++ q1 :: (v ++ [q2])) rest)
      · obtain ⟨hne, hfree, p1, p2, hp1, hp2, hcont⟩ := ih rest v hv2
        refine ⟨hne, hfree, p1, p2, hp1, hp2, ?_⟩
        rw [hs2]
        exact containsSub_append _ _ _ hcont
    | none =>
      rw [hm] at hv
      cases s with
      | nil => simp at hv
      | cons c t =>
        dsimp only at hv
        obtain ⟨hne, hfree, p1, p2, hp1, hp2, hcont⟩ := ih t v hv
        exact ⟨hne, hfree, p1, p2, hp1, hp2, containsSub_cons c t _ hcont⟩

/-! ## C4: quote handling of the link pattern -/

/-- The single quote character. -/
def squote : Char := Char.ofNat 39

/-- A decoded HTML fragment whose double-quoted href value contains a
single quote character. -/
def cex4Html : List Char := "<a href=\"ab".toList ++ squote :: "cd\">".toList

/-- C4 (amended): every extracted link value is nonempty, contains no
quote character of EITHER kind, and occurs in the scanned text between
two quote characters that need not match, preceded by the literal
`href=`; in particular, for a double-quoted href value containing a
single quote, extraction stops at the single quote instead of reading
up to the matching double quote. -/
theorem links_any_quotes :
    (∀ s v, v ∈ scanHref hrefLit s →
      v ≠ [] ∧ (∀ c ∈ v, isQuote c = false) ∧
      ∃ q1 q2, isQuote q1 = true ∧ isQuote q2 = true ∧
        containsSub s (hrefLit ++ q1 :: (v ++ [q2])) = true) ∧
    scanHref hrefLit cex4Html = ["ab".toList] :=
  ⟨fun s v hv => scan_sound hrefLit s.length s v hv, by decide!⟩

/-- Counterexample for C4 as stated: on the concrete fragment the
matching-quote reading of the pattern (modelled by `specScan`) yields
the full value up to the matching double quote, while the program
pattern stops at the embedded single quote. -/
theorem links_matching_quotes_cex :
    scanHref hrefLit cex4Html = ["ab".toList] ∧
    specScan hrefLit cex4Html = ["ab".toList ++ squote :: "cd".toList] ∧
    scanHref hrefLit cex4Html ≠ specScan hrefLit cex4Html := by
  decide!

/-- Witness for C4 (amended) at a concrete extracted value. -/
theorem links_any_quotes_witness :
    "ab".toList ∈ scanHref hrefLit cex4Html ∧
    ("ab".toList ≠ [] ∧ (∀ c ∈ "ab".toList, isQuote c = false) ∧
      ∃ q1 q2, isQuote q1 = true ∧ isQuote q2 = true ∧
        containsSub cex4Html (hrefLit ++ q1 :: ("ab".toList ++ [q2])) = true) :=
  ⟨by decide!, links_any_quotes.1 cex4Html "ab".toList (by decide!)⟩

/-! ## C7: order and duplicates -/

/-- An href attribute with value `v` delimited by the quote `q`. -/
def mkHref (q : Char) (v : List Char) : List Char :=
  hrefLit ++ q :: (v ++ [q])

/-- C7: link extraction returns the attribute values in order of
appearance and performs no deduplication: scanning a concatenation of
href attributes returns exactly the list of their values, duplicates
and order included. -/
theorem links_order_no_dedup (q : Char) (vs : List (List Char))
    (hq : isQuote q = true)
    (hvs : ∀ v ∈ vs, v ≠ [] ∧ ∀ c ∈ v, isQuote c = false) :
    scanHref hrefLit (vs.flatMap (mkHref q)) = vs := by
  induction vs with
  | nil => rfl
  | cons v vs ih =>
    obtain ⟨hv, hvq⟩ := hvs v (by simp)
    have hsplit : (v :: vs).flatMap (mkHref q) =
        hrefLit ++ q :: (v ++ q :: vs.flatMap (mkHref q)) := by
      simp [mkHref, List.flatMap_cons]
    rw [hsplit, scanHref_block hrefLit q q v _ hq hq hv hvq,
      ih (fun w hw => hvs w (List.mem_cons_of_mem _ hw))]

/-- Witness for C7: a body holding the same link value twice yields
that value twice, in scan order. -/
theorem links_order_no_dedup_witness :
    scanHref hrefLit
        (List.flatMap ["u".toList, "u".toList] (mkHref (Char.ofNat 34))) =
      ["u".toList, "u".toList] :=
  links_order_no_dedup (Char.ofNat 34) ["u".toList, "u".toList]
    (by decide!) (by decide!)

/-! ## C6: the raw quoted-printable link pass -/

/-- C6: on every successful run the raw link list is the scan of the
raw pattern `href=3D[quote]...` over the still-encoded body slice, and
the printed decodings are those raw values decoded individually through
the quoted-printable step; on the synthetic well-formed email the raw
list holds the literal still-encoded value and its individual decoding
reproduces the decoded link also present in the decoded-HTML list. -/
theorem raw_links_pass :
    (∀ email r, runExtractor email = Outcome.ok r →
      r.rawLinks = scanHref rawLit (htmlBodyOf email) ∧
      r.rawLinks.mapM (fun l => utf8Decode (qpDecodeBytes (utf8Encode l))) =
        some r.rawDecoded) ∧
    runExtractor synthEmail =
      Outcome.ok ⟨synthDecodedHtml, [synthDecLink], [synthRawLink], [synthDecLink]⟩ := by
  constructor
  · intro email r h
    unfold runExtractor at h
    split at h
    · simp at h
    · unfold extractBody at h
      split at h
      · split at h
        · simp at h
        · split at h
          · simp at h
          · rename_i rdec hrdec
            cases h
            exact ⟨rfl, by simpa using hrdec⟩
      · simp at h
  · decide!

/-- Witness for C6 at the synthetic email: the raw list of its
successful run is the raw-pattern scan of its body slice, and the
individual decodings are as printed. -/
theorem raw_links_pass_witness :
    (ExtractOut.mk synthDecodedHtml [synthDecLink] [synthRawLink]
        [synthDecLink]).rawLinks = scanHref rawLit (htmlBodyOf synthEmail) ∧
    (ExtractOut.mk synthDecodedHtml [synthDecLink] [synthRawLink]
        [synthDecLink]).rawLinks.mapM
        (fun l => utf8Decode (qpDecodeBytes (utf8Encode l))) =
      some [synthDecLink] :=
  raw_links_pass.1 synthEmail _ raw_links_pass.2

/-! ## C8: the quoted-printable round trip -/

theorem dropToNL_length : ∀ (l : List Nat), (dropToNL l).length ≤ l.length := by
  intro l
  induction l with
  | nil => simp [dropToNL]
  | cons b t ih =>
    simp only [dropToNL]
    split
    · simp
    · simp
      omega

theorem qpDecodeAux_fuel :
    ∀ (f g : Nat) (l : List Nat), l.length ≤ f → l.length ≤ g →
      qpDecodeAux f l = qpDecodeAux g l := by
  intro f
  induction f with
  | zero =>
    intro g l hf _
    have : l = [] := List.length_eq_zero.mp (by omega)
    subst this
    cases g <;> simp [qpDecodeAux]
  | succ f ih =>
    intro g l hf hg
    cases g with
    | zero =>
      have : l = [] := List.length_eq_zero.mp (by omega)
      subst this
      simp [qpDecodeAux]
    | succ g =>
      cases l with
      | nil => simp [qpDecodeAux]
      | cons c rest =>
        simp only [List.length_cons] at hf hg
        simp only [qpDecodeAux]
        by_cases hc : c = 61
        · simp only [if_pos hc]
          cases rest with
          | nil => rfl
          | cons d t =>
            simp only [List.length_cons] at hf hg
            dsimp only
            by_cases hd10 : d = 10
            · simp only [if_pos hd10]
              exact ih g t (by omega) (by omega)
            · simp only [if_neg hd10]
              by_cases hd13 : d = 13
              · simp only [if_pos hd13]
                have hlen := dropToNL_length t
                exact ih g (dropToNL t) (by omega) (by omega)
              · simp only [if_neg hd13]
                by_cases hd61 : d = 61
                · simp only [if_pos hd61]
                  rw [ih g t (by omega) (by omega)]
                · simp only [if_neg hd61]
                  cases t with
                  | nil => rfl
                  | cons e t2 =>
                    simp only [List.length_cons] at hf hg
                    dsimp only
                    by_cases hh : (isHexD d && isHexD e) = true
                    · simp only [if_pos hh]
                      rw [ih g t2 (by omega) (by omega)]
                    · simp only [if_neg hh]
                      rw [ih g (d :: e :: t2) (by simp; omega) (by simp; omega)]
        · simp only [if_neg hc]
          rw [ih g rest (by omega) (by omega)]

theorem qpDecodeAux_succ_lit (f : Nat) (c : Nat) (l : List Nat) (hc : ¬(c = 61)) :
    qpDecodeAux (f + 1) (c :: l) = c :: qpDecodeAux f l := by
  simp only [qpDecodeAux]
  rw [if_neg hc]

theorem qpDecodeAux_succ_soft (f : Nat) (l : List Nat) :
    qpDecodeAux (f + 1) (61 :: 10 :: l) = qpDecodeAux f l := by
  simp only [qpDecodeAux]
  simp

theorem qpDecodeAux_succ_hex (f : Nat) (d e : Nat) (l : List Nat)
    (hd10 : ¬(d = 10)) (hd13 : ¬(d = 13)) (hd61 : ¬(d = 61))
    (hh : (isHexD d && isHexD e) = true) :
    qpDecodeAux (f + 1) (61 :: d :: e :: l) =
      (hexVal d * 16 + hexVal e) :: qpDecodeAux f l := by
  simp only [qpDecodeAux]
  simp [hd10, hd13, hd61, hh]

theorem decode_softbreak (l : List Nat) :
    qpDecodeBytes (61 :: 10 :: l) = qpDecodeBytes l := by
  unfold qpDecodeBytes
  simp only [List.length_cons]
  rw [qpDecodeAux_succ_soft (l.length + 1) l]
  exact qpDecodeAux_fuel (l.length + 1) l.length l (by omega) le_rfl

theorem hexDigit_props (n : Nat) (h : n < 16) :
    isHexD (hexDigit n) = true ∧ hexDigit n ≠ 10 ∧ hexDigit n ≠ 13 ∧
      hexDigit n ≠ 61 ∧ hexVal (hexDigit n) = n := by
  by_cases h10 : n < 10
  · simp only [hexDigit, if_pos h10, isHexD, hexVal, Bool.or_eq_true,
      Bool.and_eq_true, decide_eq_true_eq]
    refine ⟨by omega, by omega, by omega, by omega, ?_⟩
    rw [if_pos (by omega)]
    omega
  · simp only [hexDigit, if_neg h10, isHexD, hexVal, Bool.or_eq_true,
      Bool.and_eq_true, decide_eq_true_eq]
    refine ⟨by omega, by omega, by omega, by omega, ?_⟩
    rw [if_neg (by omega), if_pos (by omega)]
    omega

theorem decode_encByte (b : Nat) (hb : b < 256) (l : List Nat) :
    qpDecodeBytes (encByte b ++ l) = b :: qpDecodeBytes l := by
  unfold encByte
  split
  · rename_i h
    simp only [Bool.or_eq_true, Bool.and_eq_true, decide_eq_true_eq] at h
    have hb61 : ¬(b = 61) := by omega
    simp only [List.cons_append, List.nil_append]
    unfold qpDecodeBytes
    simp only [List.length_cons]
    rw [qpDecodeAux_succ_lit l.length b l hb61]
  · obtain ⟨hx1, hn1, hn2, hn3, hv1⟩ := hexDigit_props (b / 16) (by omega)
    obtain ⟨hx2, _, _, _, hv2⟩ := hexDigit_props (b % 16) (by omega)
    simp only [List.cons_append, List.nil_append]
    unfold qpDecodeBytes
    simp only [List.length_cons]
    rw [qpDecodeAux_succ_hex (l.length + 1 + 1) (hexDigit (b / 16))
      (hexDigit (b % 16)) l hn1 hn2 hn3 (by rw [hx1, hx2]; rfl)]
    rw [hv1, hv2]
    have hval : b / 16 * 16 + b % 16 = b := by omega
    rw [hval]
    rw [qpDecodeAux_fuel (l.length + 1 + 1) l.length l (by omega) le_rfl]

theorem qp_decode_encodeAux :
    ∀ (s : List Nat), (∀ b ∈ s, b < 256) → ∀ col,
      qpDecodeBytes (qpEncodeAux s col) = s := by
  intro s
  induction s with
  | nil => intro _ col; rfl
  | cons b t ih =>
    intro hs col
    have hb : b < 256 := hs b (by simp)
    have ht : ∀ x ∈ t, x < 256 := fun x hx => hs x (by simp [hx])
    simp only [qpEncodeAux]
    split
    · rw [decode_softbreak, decode_encByte b hb, ih ht _]
    · rw [decode_encByte b hb, ih ht _]

/-- C8: decoding with the quoted-printable decode step used by
EmailLinkExtractor is a left inverse of the standard quoted-printable
encoding: every byte string survives the encode-then-decode round trip
exactly. -/
theorem qp_decode_encode_id (s : List Nat) (h : ∀ b ∈ s, b < 256) :
    qpDecodeBytes (qpEncodeBytes s) = s :=
  qp_decode_encodeAux s h 0

/-- Witness for C8 on a byte string exercising the literal, escape and
newline paths. -/
theorem qp_decode_encode_id_witness :
    (∀ b ∈ [72, 61, 10, 13, 200, 32, 9, 0], b < 256) ∧
    qpDecodeBytes (qpEncodeBytes [72, 61, 10, 13, 200, 32, 9, 0]) =
      [72, 61, 10, 13, 200, 32, 9, 0] :=
  ⟨by decide, qp_decode_encode_id [72, 61, 10, 13, 200, 32, 9, 0] (by decide)⟩

end VCMail
